import Mathlib

/-!
# Verification of the mortgage-app frontend's core derivations

A shallow embedding of the pure computations of the repository:

* `src/components/DataTable.tsx` — client-side filter, sort, pagination and
  the header sort-state cycle;
* `src/pages/LoanApplicationsPage.tsx` — the amortization estimate
  (`calculatePayment`), the watched-input defaults, and the mutation
  success/error handlers;
* `src/pages/PropertiesPage.tsx` — the mutation success/error handlers;
* `src/pages/DashboardPage.tsx` — the dashboard aggregates.

Modelling conventions:

* JavaScript numbers are modelled by `ℚ` (exact arithmetic; floating-point
  rounding, overflow and negative zero are not modelled).  Where the special
  values `NaN`/`±Infinity` matter (the payment formula guards on `isNaN`),
  numbers are modelled by `JSVal`, which adjoins the three special values to
  `ℚ` with their IEEE-754 propagation rules.
* Table cell values are either strings or numbers (`Cell`); a JavaScript
  `null`/`undefined`/absent field is modelled by `Option.none` (the code only
  ever tests `value == null`, which conflates the three).
* `String(value)` on a string is the string itself; on an integer it is its
  decimal form.  (Non-integер formatting is irrelevant to every claim.)
* `Array.prototype.sort` is modelled as a stable top-down merge sort driven
  by the source's comparator — the merge takes the left element whenever the
  comparator yields `≤ 0`.  (ECMA-262 leaves the order produced by an
  inconsistent comparator implementation-defined; the comparator in
  `DataTable.tsx` is inconsistent exactly on pairs of records that both lack
  the sort-column value.)
-/

/-! ## Characters and strings (kernel-computable replacements) -/

/-- ASCII lower-casing of a character list, modelling `String.toLowerCase`
(the app's data is ASCII; full Unicode case mapping is not modelled). -/
def lowerChars (l : List Char) : List Char := l.map Char.toLower

/-- `startsWithChars needle hay` : `needle` is a prefix of `hay`. -/
def startsWithChars : List Char → List Char → Bool
  | [], _ => true
  | _ :: _, [] => false
  | c :: cs, d :: ds => c = d && startsWithChars cs ds

/-- `containsChars needle hay` : `needle` occurs contiguously in `hay`,
modelling `String.prototype.includes`. -/
def containsChars (needle : List Char) : List Char → Bool
  | [] => needle.isEmpty
  | d :: ds => startsWithChars needle (d :: ds) || containsChars needle ds

/-- `jsIncludes s t` models `s.includes(t)`. -/
def jsIncludes (s t : String) : Bool := containsChars t.data s.data

/-- Code-unit lexicographic order on character lists, modelling `<` on
JavaScript strings. -/
def charsLt : List Char → List Char → Bool
  | [], [] => false
  | [], _ :: _ => true
  | _ :: _, [] => false
  | a :: as, b :: bs => a < b || (a = b && charsLt as bs)

/-! ## Table cells and records -/

/-- A table cell value: a JavaScript string or number. -/
inductive Cell where
  | str : String → Cell
  | num : ℚ → Cell
deriving DecidableEq

/-- `String(value)`: a string stringifies to itself; an integer to its decimal
representation.  Integers are the only numbers any claim stringifies;
for a non-integer rational we emit `num/den`, which is *not* the JavaScript
format, but no claim depends on it. -/
def natDigitsAux : ℕ → ℕ → List Char
  | 0, _ => []
  | fuel + 1, n => if n < 10 then [Nat.digitChar n]
      else natDigitsAux fuel (n / 10) ++ [Nat.digitChar (n % 10)]

/-- Decimal representation of a natural number. -/
def natChars (n : ℕ) : List Char := natDigitsAux (n + 1) n

/-- Decimal representation of an integer. -/
def intChars : ℤ → List Char
  | Int.ofNat n => natChars n
  | Int.negSucc n => '-' :: natChars (n + 1)

def cellToString : Cell → String
  | .str s => s
  | .num q => if q.den = 1 then ⟨intChars q.num⟩
      else ⟨intChars q.num ++ '/' :: natChars q.den⟩

/-- JavaScript `<` on two cell values.  Numbers compare numerically, strings
lexicographically.  A number/string comparison in JavaScript coerces the
string to a number and is `false` whenever that yields `NaN`; the app's
sortable columns are homogeneous, so the coercion case is modelled as
`false`. -/
def cellLt : Cell → Cell → Bool
  | .num a, .num b => a < b
  | .str a, .str b => charsLt a.data b.data
  | .num _, .str _ => false
  | .str _, .num _ => false

/-- A data record (`T extends Record<string, unknown>`): a finite map from
column keys to cells; a missing key models `null`/`undefined`. -/
def Item : Type := List (String × Cell)

instance : DecidableEq Item := inferInstanceAs (DecidableEq (List (String × Cell)))

/-- `item[key]`, `undefined` as `none`. -/
def getValue (item : Item) (key : String) : Option Cell := List.lookup key item

/-- A column descriptor: `key`, `sortable` flag and optional custom renderer
(the `header` label plays no computational role). -/
structure Column where
  key : String
  sortable : Bool := false
  render : Option (Item → String) := none

/-! ## DataTable: filter -/

/-- The body of the search predicate for one column, from
`String(value).toLowerCase().includes(searchQuery.toLowerCase())`. -/
def cellMatches (query : String) (v : Cell) : Bool :=
  containsChars (lowerChars query.data) (lowerChars (cellToString v).data)

/-- `filteredData` from `DataTable.tsx` lines 39–48. -/
def filteredData (searchQuery : String) (columns : List Column) (data : List Item) :
    List Item :=
  if searchQuery = "" then data
  else data.filter fun item =>
    columns.any fun column =>
      match getValue item column.key with
      | none => false
      | some value => cellMatches searchQuery value

/-- Forgetting a column's custom renderer. -/
def stripRender (c : Column) : Column := { c with render := none }

/-! ## DataTable: sort

`[...filteredData].sort(comparator)` is modelled by a stable top-down merge
sort: the merge emits the left element whenever the comparator is `≤ 0`.
The functions take explicit fuel so that the kernel can evaluate them; the
wrappers fix the fuel to a sufficient value. -/

def jsMergeFuel (le : α → α → Bool) : ℕ → List α → List α → List α
  | 0, xs, ys => xs ++ ys
  | _ + 1, [], ys => ys
  | _ + 1, x :: xs, [] => x :: xs
  | fuel + 1, x :: xs, y :: ys =>
    if le x y then x :: jsMergeFuel le fuel xs (y :: ys)
    else y :: jsMergeFuel le fuel (x :: xs) ys

/-- Merge two runs, taking from the left run while the comparator is `≤ 0`. -/
def jsMerge (le : α → α → Bool) (xs ys : List α) : List α :=
  jsMergeFuel le (xs.length + ys.length) xs ys

def jsMergeSortFuel (le : α → α → Bool) : ℕ → List α → List α
  | 0, l => l
  | fuel + 1, l =>
    if l.length ≤ 1 then l
    else
      jsMerge le (jsMergeSortFuel le fuel (l.take (l.length / 2)))
        (jsMergeSortFuel le fuel (l.drop (l.length / 2)))

/-- Stable merge sort of a list by a boolean "comparator ≤ 0" relation. -/
def jsMergeSort (le : α → α → Bool) (l : List α) : List α :=
  jsMergeSortFuel le l.length l

/-- Sort direction of the active sort spec. -/
inductive Direction where
  | asc
  | desc
deriving DecidableEq

/-- The `sortConfig` state: `{ key, direction }`. -/
structure SortConfig where
  key : String
  direction : Direction

/-- The comparator from `DataTable.tsx` lines 53–61. -/
def rowCompare (cfg : SortConfig) (a b : Item) : ℤ :=
  match getValue a cfg.key with
  | none => 1
  | some aValue =>
    match getValue b cfg.key with
    | none => -1
    | some bValue =>
      if cellLt aValue bValue then if cfg.direction = .asc then -1 else 1
      else if cellLt bValue aValue then if cfg.direction = .asc then 1 else -1
      else 0

/-- The "keep the left element first" relation induced by the comparator. -/
def rowLe (cfg : SortConfig) (a b : Item) : Bool := rowCompare cfg a b ≤ 0

/-- `sortedData` from `DataTable.tsx` lines 51–62. -/
def sortedData (sortConfig : Option SortConfig) (l : List Item) : List Item :=
  match sortConfig with
  | none => l
  | some cfg => jsMergeSort (fun a b => rowLe cfg a b) l

/-! ## DataTable: pagination and render -/

/-- `Math.ceil(sortedData.length / pageSize)` for a positive page size. -/
def totalPages (pageSize : ℕ) (l : List Item) : ℕ :=
  (l.length + pageSize - 1) / pageSize

/-- `sortedData.slice((currentPage - 1) * pageSize, currentPage * pageSize)`
from `DataTable.tsx` line 66. -/
def paginatedData (currentPage pageSize : ℕ) (l : List Item) : List Item :=
  (l.drop ((currentPage - 1) * pageSize)).take pageSize

/-- The local state of the `DataTable` component. -/
structure TableState where
  searchQuery : String
  sortConfig : Option SortConfig
  currentPage : ℕ

/-- What one render pass of `DataTable` derives from props and state. -/
structure TableView where
  rows : List Item
  pages : ℕ
  showEmpty : Bool
  pageAfter : ℕ

/-- One render of `DataTable`: the pure derivation chain
filter → sort → paginate.  The render never writes to the page state, so the
view records the page index unchanged (`pageAfter`); the empty-state row is
shown exactly when the page slice is empty (`DataTable.tsx` line 128). -/
def renderTable (pageSize : ℕ) (columns : List Column) (data : List Item)
    (s : TableState) : TableView :=
  let filtered := filteredData s.searchQuery columns data
  let sorted := sortedData s.sortConfig filtered
  let rows := paginatedData s.currentPage pageSize sorted
  { rows := rows
    pages := totalPages pageSize sorted
    showEmpty := rows.length = 0
    pageAfter := s.currentPage }

/-- `handleSort` from `DataTable.tsx` lines 68–75. -/
def handleSort (key : String) (current : Option SortConfig) : Option SortConfig :=
  match current with
  | some c =>
    if c.key = key then
      if c.direction = .asc then some ⟨key, .desc⟩ else none
    else some ⟨key, .asc⟩
  | none => some ⟨key, .asc⟩

/-! ## JavaScript numbers with special values

`LoanApplicationsPage.tsx` guards the payment formula with `isNaN`, so the
special values matter there.  `JSVal` adjoins `NaN` and `±Infinity` to exact
rationals; the operations follow IEEE-754 special-value propagation.
Rounding, overflow and negative zero are not modelled (`num 0` is `+0`). -/

inductive JSVal where
  | num : ℚ → JSVal
  | nan : JSVal
  | inf : JSVal
  | ninf : JSVal
deriving DecidableEq

namespace JSVal

def add : JSVal → JSVal → JSVal
  | nan, _ => nan
  | _, nan => nan
  | inf, ninf => nan
  | ninf, inf => nan
  | inf, _ => inf
  | _, inf => inf
  | ninf, _ => ninf
  | _, ninf => ninf
  | num a, num b => num (a + b)

def sub : JSVal → JSVal → JSVal
  | nan, _ => nan
  | _, nan => nan
  | inf, inf => nan
  | ninf, ninf => nan
  | inf, _ => inf
  | ninf, _ => ninf
  | num _, inf => ninf
  | num _, ninf => inf
  | num a, num b => num (a - b)

def mul : JSVal → JSVal → JSVal
  | nan, _ => nan
  | _, nan => nan
  | num a, num b => num (a * b)
  | inf, inf => inf
  | inf, ninf => ninf
  | ninf, inf => ninf
  | ninf, ninf => inf
  | inf, num q => if q = 0 then nan else if 0 < q then inf else ninf
  | num q, inf => if q = 0 then nan else if 0 < q then inf else ninf
  | ninf, num q => if q = 0 then nan else if 0 < q then ninf else inf
  | num q, ninf => if q = 0 then nan else if 0 < q then ninf else inf

def div : JSVal → JSVal → JSVal
  | nan, _ => nan
  | _, nan => nan
  | num a, num b =>
    if b = 0 then if a = 0 then nan else if 0 < a then inf else ninf
    else num (a / b)
  | inf, inf => nan
  | inf, ninf => nan
  | ninf, inf => nan
  | ninf, ninf => nan
  | inf, num q => if 0 ≤ q then inf else ninf
  | ninf, num q => if 0 ≤ q then ninf else inf
  | num _, inf => num 0
  | num _, ninf => num 0

/-- `Math.pow(x, n)` for a natural exponent, as iterated multiplication
(exact; consistent with IEEE special-value rules, e.g. `pow nan 0 = 1`). -/
def powNat (x : JSVal) : ℕ → JSVal
  | 0 => num 1
  | n + 1 => mul x (powNat x n)

/-- `v === 0` (strict equality against the number literal `0`). -/
def isZero : JSVal → Bool
  | num q => q = 0
  | _ => false

/-- Global `isNaN` on a number value. -/
def isNaN : JSVal → Bool
  | nan => true
  | _ => false

end JSVal

/-- `calculatePayment` from `LoanApplicationsPage.tsx` lines 83–89, for a
natural number of term months. -/
def calculatePayment (loanAmount downPayment interestRate : JSVal)
    (termMonths : ℕ) : JSVal :=
  let principal := loanAmount.sub downPayment
  let monthlyRate := (interestRate.div (.num 100)).div (.num 12)
  if monthlyRate.isZero then principal.div (.num termMonths)
  else
    let payment :=
      ((principal.mul monthlyRate).mul (((JSVal.num 1).add monthlyRate).powNat termMonths)).div
        ((((JSVal.num 1).add monthlyRate).powNat termMonths).sub (.num 1))
    if payment.isNaN then .num 0 else payment

/-- A value held in react-hook-form state for one of the loan form's numeric
fields.  The form state stores what the DOM reports, so a user-typed value is
a *string* (an `<input type=number>` whose content is not a valid number
reports `""`); a value coming from programmatic `defaultValues` (an existing
record, or the initial `termMonths: 360`) is still a number; `undef` is a
field holding no value.  The schema's `z.coerce.number()` converts only at
validation time, not in the watched state. -/
inductive FormVal where
  | num : ℚ → FormVal
  | str : String → FormVal
  | undef : FormVal
deriving DecidableEq

/-- JavaScript truthiness of a watched form value: the number `0` and the
empty string are falsy; any other string — including `"0"` — is truthy. -/
def FormVal.truthy : FormVal → Bool
  | num q => q ≠ 0
  | str s => s ≠ ""
  | undef => false

/-- `watch(field) || default` with a numeric default literal
(`LoanApplicationsPage.tsx` lines 78–81). -/
def jsOrF (v : FormVal) (d : ℚ) : FormVal :=
  if v.truthy then v else .num d

/-- Value of a digit string (`some 0` on the empty list; callers guard
emptiness where JavaScript requires it). -/
def parseDigits (l : List Char) : Option ℕ :=
  l.foldl
    (fun acc c =>
      match acc with
      | none => none
      | some n => if '0' ≤ c ∧ c ≤ '9' then some (n * 10 + (c.toNat - 48)) else none)
    (some 0)

/-- Value of an unsigned decimal string: digits with an optional single dot
and fractional digits (the only shapes a number input's sanitized value
takes besides a sign and exponent; the exponent form is not modelled). -/
def parseDecimal (l : List Char) : Option ℚ :=
  let intPart := l.takeWhile (fun c => c ≠ '.')
  let rest := l.dropWhile (fun c => c ≠ '.')
  match rest with
  | [] =>
    if intPart.isEmpty then none
    else (parseDigits intPart).map (fun n => (n : ℚ))
  | _ :: frac =>
    if frac.any (fun c => c = '.') then none
    else if intPart.isEmpty && frac.isEmpty then none
    else
      match parseDigits intPart, parseDigits frac with
      | some a, some b => some ((a : ℚ) + (b : ℚ) / (10 : ℚ) ^ frac.length)
      | _, _ => none

/-- JavaScript `ToNumber` of a watched form value, as performed implicitly
by the arithmetic in `calculatePayment`: numbers pass through, `undefined`
becomes `NaN`, the empty string is `0`, an optionally signed decimal string
denotes its value, and anything else is `NaN`. -/
def jsToNumber : FormVal → JSVal
  | .num q => .num q
  | .undef => .nan
  | .str s =>
    match s.data with
    | [] => .num 0
    | '-' :: rest =>
      match parseDecimal rest with
      | some q => .num (-q)
      | none => .nan
    | l =>
      match parseDecimal l with
      | some q => .num q
      | none => .nan

/-- The effective term: the term select yields only the strings
`"180"`/`"240"`/`"360"` (or the numeric default 360), a nonnegative integer
month count used as the `Math.pow` exponent and the `P/n` divisor; the model
takes its denoted natural value (anything the select cannot produce counts
as 0). -/
def termCount (v : FormVal) : ℕ :=
  match jsToNumber v with
  | .num q => if q.den = 1 then q.num.toNat else 0
  | _ => 0

/-- The monthly-payment estimate displayed by the loan form
(`LoanApplicationsPage.tsx` lines 78–89): the watched inputs with their
falsy-defaults fed to `calculatePayment`. -/
def estimatedPayment (loanAmount downPayment interestRate termMonths : FormVal) :
    JSVal :=
  calculatePayment (jsToNumber (jsOrF loanAmount 0)) (jsToNumber (jsOrF downPayment 0))
    (jsToNumber (jsOrF interestRate 6.5)) (termCount (jsOrF termMonths 360))

/-! ## Dashboard aggregates (`DashboardPage.tsx` lines 40–50) -/

inductive LoanStatus where
  | Draft
  | Submitted
  | UnderReview
  | Approved
  | Denied
  | Closed
  | Funded
deriving DecidableEq

/-- A loan application, with `createdAt` modelled directly as the epoch
timestamp that `new Date(a.createdAt).getTime()` yields. -/
structure LoanApplication where
  id : String
  customerId : String
  propertyId : String
  loanAmount : ℚ
  status : LoanStatus
  createdAt : ℤ
deriving DecidableEq

/-- `applications.reduce((sum, a) => sum + a.loanAmount, 0)`. -/
def totalLoanValue (applications : List LoanApplication) : ℚ :=
  applications.foldl (fun sum a => sum + a.loanAmount) 0

/-- `applications.filter(a => ['Submitted', 'UnderReview'].includes(a.status)).length`. -/
def pendingReview (applications : List LoanApplication) : ℕ :=
  (applications.filter fun a =>
    a.status = .Submitted || a.status = .UnderReview).length

/-- `[...applications].sort((a, b) => timeOf b - timeOf a).slice(0, 5)`. -/
def recentApps (applications : List LoanApplication) : List LoanApplication :=
  (jsMergeSort (fun a b => b.createdAt - a.createdAt ≤ 0) applications).take 5

/-! ## Entity-page mutation handlers

`useMutation` invokes exactly one of `onSuccess`/`onError` when the request
settles.  The page state holds the three modal slots, the cached list with
its staleness flag (`invalidateQueries` marks the list stale so it is
refetched; it does not rewrite the cached data), and the emitted toasts. -/

inductive Toast where
  | success : String → Toast
  | error : String → Toast
deriving DecidableEq

/-- Modal/cache state of `LoanApplicationsPage` (lines 134–161). -/
structure LoanPageState where
  isCreateOpen : Bool
  editingApp : Option LoanApplication
  deletingApp : Option LoanApplication
  cachedApps : List LoanApplication
  appsStale : Bool
  toasts : List Toast

def loanCreateOnSuccess (s : LoanPageState) : LoanPageState :=
  { s with appsStale := true, isCreateOpen := false,
           toasts := s.toasts ++ [.success "Application created"] }

def loanCreateOnError (s : LoanPageState) : LoanPageState :=
  { s with toasts := s.toasts ++ [.error "Failed to create application"] }

def loanUpdateOnSuccess (s : LoanPageState) : LoanPageState :=
  { s with appsStale := true, editingApp := none,
           toasts := s.toasts ++ [.success "Application updated"] }

def loanUpdateOnError (s : LoanPageState) : LoanPageState :=
  { s with toasts := s.toasts ++ [.error "Failed to update application"] }

def loanDeleteOnSuccess (s : LoanPageState) : LoanPageState :=
  { s with appsStale := true, deletingApp := none,
           toasts := s.toasts ++ [.success "Application deleted"] }

def loanDeleteOnError (s : LoanPageState) : LoanPageState :=
  { s with toasts := s.toasts ++ [.error "Failed to delete application"] }

/-- How a settled mutation updates the page state (`ok` = request succeeded). -/
def loanCreateSettle (ok : Bool) (s : LoanPageState) : LoanPageState :=
  if ok then loanCreateOnSuccess s else loanCreateOnError s

def loanUpdateSettle (ok : Bool) (s : LoanPageState) : LoanPageState :=
  if ok then loanUpdateOnSuccess s else loanUpdateOnError s

def loanDeleteSettle (ok : Bool) (s : LoanPageState) : LoanPageState :=
  if ok then loanDeleteOnSuccess s else loanDeleteOnError s

/-- A property record (only identity matters to the modal logic). -/
structure PropertyRec where
  id : String
deriving DecidableEq

/-- Modal/cache state of `PropertiesPage` (lines 101–128). -/
structure PropPageState where
  isCreateOpen : Bool
  editingProperty : Option PropertyRec
  deletingProperty : Option PropertyRec
  cachedProps : List PropertyRec
  propsStale : Bool
  toasts : List Toast

def propCreateOnSuccess (s : PropPageState) : PropPageState :=
  { s with propsStale := true, isCreateOpen := false,
           toasts := s.toasts ++ [.success "Property created"] }

def propCreateOnError (s : PropPageState) : PropPageState :=
  { s with toasts := s.toasts ++ [.error "Failed to create property"] }

def propUpdateOnSuccess (s : PropPageState) : PropPageState :=
  { s with propsStale := true, editingProperty := none,
           toasts := s.toasts ++ [.success "Property updated"] }

def propUpdateOnError (s : PropPageState) : PropPageState :=
  { s with toasts := s.toasts ++ [.error "Failed to update property"] }

def propDeleteOnSuccess (s : PropPageState) : PropPageState :=
  { s with propsStale := true, deletingProperty := none,
           toasts := s.toasts ++ [.success "Property deleted"] }

def propDeleteOnError (s : PropPageState) : PropPageState :=
  { s with toasts := s.toasts ++ [.error "Failed to delete property"] }

def propCreateSettle (ok : Bool) (s : PropPageState) : PropPageState :=
  if ok then propCreateOnSuccess s else propCreateOnError s

def propUpdateSettle (ok : Bool) (s : PropPageState) : PropPageState :=
  if ok then propUpdateOnSuccess s else propUpdateOnError s

def propDeleteSettle (ok : Bool) (s : PropPageState) : PropPageState :=
  if ok then propDeleteOnSuccess s else propDeleteOnError s

/-- A customer record (only identity matters to the modal logic). -/
structure CustomerRec where
  id : String
deriving DecidableEq

/-- Modal/cache state of `CustomersPage` (the third entity page, routed at
`/customers`; its mutations follow the same pattern as the other two). -/
structure CustPageState where
  isCreateOpen : Bool
  editingCustomer : Option CustomerRec
  deletingCustomer : Option CustomerRec
  cachedCustomers : List CustomerRec
  customersStale : Bool
  toasts : List Toast

def custCreateOnSuccess (s : CustPageState) : CustPageState :=
  { s with customersStale := true, isCreateOpen := false,
           toasts := s.toasts ++ [.success "Customer created"] }

def custCreateOnError (s : CustPageState) : CustPageState :=
  { s with toasts := s.toasts ++ [.error "Failed to create customer"] }

def custUpdateOnSuccess (s : CustPageState) : CustPageState :=
  { s with customersStale := true, editingCustomer := none,
           toasts := s.toasts ++ [.success "Customer updated"] }

def custUpdateOnError (s : CustPageState) : CustPageState :=
  { s with toasts := s.toasts ++ [.error "Failed to update customer"] }

def custDeleteOnSuccess (s : CustPageState) : CustPageState :=
  { s with customersStale := true, deletingCustomer := none,
           toasts := s.toasts ++ [.success "Customer deleted"] }

def custDeleteOnError (s : CustPageState) : CustPageState :=
  { s with toasts := s.toasts ++ [.error "Failed to delete customer"] }

def custCreateSettle (ok : Bool) (s : CustPageState) : CustPageState :=
  if ok then custCreateOnSuccess s else custCreateOnError s

def custUpdateSettle (ok : Bool) (s : CustPageState) : CustPageState :=
  if ok then custUpdateOnSuccess s else custUpdateOnError s

def custDeleteSettle (ok : Bool) (s : CustPageState) : CustPageState :=
  if ok then custDeleteOnSuccess s else custDeleteOnError s

/-! ## Auxiliary predicates for the sort theorems -/

/-- The kind of a cell: `true` for numbers, `false` for strings. -/
def cellIsNum : Cell → Bool
  | .num _ => true
  | .str _ => false

/-- Every defined value of `item` under `key` has kind `κ` (the sortable
columns of the app are homogeneous: one kind per column). -/
def KindHomog (key : String) (κ : Bool) (item : Item) : Prop :=
  ∀ c, getValue item key = some c → cellIsNum c = κ

instance (key : String) (κ : Bool) (item : Item) :
    Decidable (KindHomog key κ item) := by
  unfold KindHomog
  cases getValue item key with
  | none => exact isTrue (by intro c h; cases h)
  | some v =>
    by_cases h : cellIsNum v = κ
    · exact isTrue (by intro c hc; cases hc; exact h)
    · exact isFalse (by intro hall; exact h (hall v rfl))

/-! ## Theorems: C2 -/

/-- **C2.** A record is retained by the filter iff the search text is empty or
some column's stringified raw value contains it case-insensitively
(null/absent cells never match); and filtering is oblivious to custom
renderers. -/
theorem filteredData_spec (searchQuery : String) (columns : List Column)
    (data : List Item) (item : Item) :
    (item ∈ filteredData searchQuery columns data ↔
      item ∈ data ∧ (searchQuery = "" ∨
        ∃ c ∈ columns, ∃ v, getValue item c.key = some v ∧
          cellMatches searchQuery v = true))
    ∧ filteredData searchQuery columns data
        = filteredData searchQuery (columns.map stripRender) data := by
  constructor
  · by_cases hq : searchQuery = ""
    · simp [filteredData, hq]
    · rw [filteredData, if_neg hq, List.mem_filter, List.any_eq_true]
      constructor
      · rintro ⟨hmem, c, hc, hmatch⟩
        refine ⟨hmem, Or.inr ⟨c, hc, ?_⟩⟩
        cases hv : getValue item c.key with
        | none => rw [hv] at hmatch; exact absurd hmatch (by simp)
        | some v => rw [hv] at hmatch; exact ⟨v, rfl, hmatch⟩
      · rintro ⟨hmem, hq' | ⟨c, hc, v, hv, hmatch⟩⟩
        · exact absurd hq' hq
        · exact ⟨hmem, c, hc, by rw [hv]; exact hmatch⟩
  · by_cases hq : searchQuery = ""
    · simp [filteredData, hq]
    · rw [filteredData, filteredData, if_neg hq, if_neg hq]
      congr 1
      funext item
      rw [List.any_map]
      rfl

/-! ## Merge sort: basic equations -/

theorem jsMergeFuel_congr (le : α → α → Bool) :
    ∀ (f g : ℕ) (xs ys : List α), xs.length + ys.length ≤ f →
      xs.length + ys.length ≤ g → jsMergeFuel le f xs ys = jsMergeFuel le g xs ys := by
  intro f
  induction f with
  | zero =>
    intro g xs ys hf hg
    have hxs : xs = [] := by
      cases xs with
      | nil => rfl
      | cons a t => simp [List.length_cons] at hf
    have hys : ys = [] := by
      cases ys with
      | nil => rfl
      | cons a t => simp [List.length_cons] at hf
    subst hxs; subst hys
    cases g <;> simp [jsMergeFuel]
  | succ f ihf =>
    intro g xs ys hf hg
    cases g with
    | zero =>
      have hxs : xs = [] := by
        cases xs with
        | nil => rfl
        | cons a t => simp [List.length_cons] at hg
      have hys : ys = [] := by
        cases ys with
        | nil => rfl
        | cons a t => simp [List.length_cons] at hg
      subst hxs; subst hys
      simp [jsMergeFuel]
    | succ g =>
      cases xs with
      | nil => simp [jsMergeFuel]
      | cons x xs =>
        cases ys with
        | nil => simp [jsMergeFuel]
        | cons y ys =>
          simp only [jsMergeFuel]
          simp only [List.length_cons] at hf hg
          by_cases h : le x y = true
          · rw [if_pos h, if_pos h]
            congr 1
            exact ihf g xs (y :: ys) (by simp only [List.length_cons]; omega)
              (by simp only [List.length_cons]; omega)
          · rw [if_neg h, if_neg h]
            congr 1
            exact ihf g (x :: xs) ys (by simp only [List.length_cons]; omega)
              (by simp only [List.length_cons]; omega)

theorem jsMerge_nil_left (le : α → α → Bool) (ys : List α) : jsMerge le [] ys = ys := by
  cases ys <;> simp [jsMerge, jsMergeFuel]

theorem jsMerge_nil_right (le : α → α → Bool) (xs : List α) : jsMerge le xs [] = xs := by
  cases xs <;> simp [jsMerge, jsMergeFuel]

theorem jsMerge_cons_cons (le : α → α → Bool) (x y : α) (xs ys : List α) :
    jsMerge le (x :: xs) (y :: ys) =
      if le x y then x :: jsMerge le xs (y :: ys) else y :: jsMerge le (x :: xs) ys := by
  have h1 : (x :: xs).length + (y :: ys).length = xs.length + (y :: ys).length + 1 := by
    simp [List.length_cons]; omega
  rw [jsMerge, h1]
  simp only [jsMergeFuel]
  by_cases h : le x y = true
  · rw [if_pos h, if_pos h]
    rfl
  · rw [if_neg h, if_neg h]
    congr 1
    exact jsMergeFuel_congr le _ _ (x :: xs) ys (by simp only [List.length_cons]; omega)
      (by simp only [List.length_cons]; omega)

theorem jsMergeSortFuel_congr (le : α → α → Bool) :
    ∀ (f g : ℕ) (l : List α), l.length ≤ f → l.length ≤ g →
      jsMergeSortFuel le f l = jsMergeSortFuel le g l := by
  intro f
  induction f with
  | zero =>
    intro g l hf hg
    have hl : l = [] := by
      cases l with
      | nil => rfl
      | cons a t => simp [List.length_cons] at hf
    subst hl
    cases g <;> simp [jsMergeSortFuel]
  | succ f ihf =>
    intro g l hf hg
    cases g with
    | zero =>
      have hl : l = [] := by
        cases l with
        | nil => rfl
        | cons a t => simp [List.length_cons] at hg
      subst hl
      simp [jsMergeSortFuel]
    | succ g =>
      simp only [jsMergeSortFuel]
      by_cases h : l.length ≤ 1
      · rw [if_pos h, if_pos h]
      · rw [if_neg h, if_neg h]
        congr 1
        · exact ihf g (l.take (l.length / 2)) (by simp only [List.length_take]; omega)
            (by simp only [List.length_take]; omega)
        · exact ihf g (l.drop (l.length / 2)) (by simp only [List.length_drop]; omega)
            (by simp only [List.length_drop]; omega)

theorem jsMergeSort_short (le : α → α → Bool) {l : List α} (h : l.length ≤ 1) :
    jsMergeSort le l = l := by
  rw [jsMergeSort]
  cases l with
  | nil => rfl
  | cons a t =>
    cases t with
    | nil => simp [jsMergeSortFuel]
    | cons b u => simp [List.length_cons] at h

theorem jsMergeSort_recurse (le : α → α → Bool) {l : List α} (h : 2 ≤ l.length) :
    jsMergeSort le l =
      jsMerge le (jsMergeSort le (l.take (l.length / 2)))
        (jsMergeSort le (l.drop (l.length / 2))) := by
  have hl : l.length = (l.length - 1) + 1 := by omega
  rw [jsMergeSort]
  conv_lhs => rw [hl]
  simp only [jsMergeSortFuel]
  rw [if_neg (by omega)]
  rw [jsMergeSort, jsMergeSort]
  congr 1
  · exact jsMergeSortFuel_congr le _ _ (l.take (l.length / 2))
      (by simp only [List.length_take]; omega) (le_rfl)
  · exact jsMergeSortFuel_congr le _ _ (l.drop (l.length / 2))
      (by simp only [List.length_drop]; omega) (le_rfl)

/-! ## Merge sort: permutation -/

theorem jsMerge_perm (le : α → α → Bool) :
    ∀ xs ys : List α, (jsMerge le xs ys).Perm (xs ++ ys) := by
  intro xs
  induction xs with
  | nil => intro ys; simp [jsMerge_nil_left]
  | cons x xs ihx =>
    intro ys
    induction ys with
    | nil => simp [jsMerge_nil_right]
    | cons y ys ihy =>
      rw [jsMerge_cons_cons]
      by_cases h : le x y = true
      · rw [if_pos h]
        exact (ihx (y :: ys)).cons x
      · rw [if_neg h]
        exact (ihy.cons y).trans List.perm_middle.symm

theorem jsMergeSortFuel_perm (le : α → α → Bool) :
    ∀ (f : ℕ) (l : List α), l.length ≤ f → (jsMergeSortFuel le f l).Perm l := by
  intro f
  induction f with
  | zero => intro l _; simp [jsMergeSortFuel]
  | succ f ihf =>
    intro l hf
    simp only [jsMergeSortFuel]
    by_cases h : l.length ≤ 1
    · rw [if_pos h]
    · rw [if_neg h]
      refine (jsMerge_perm le _ _).trans ?_
      have p1 := ihf (l.take (l.length / 2)) (by simp only [List.length_take]; omega)
      have p2 := ihf (l.drop (l.length / 2)) (by simp only [List.length_drop]; omega)
      exact (p1.append p2).trans (by rw [List.take_append_drop])

theorem jsMergeSort_perm (le : α → α → Bool) (l : List α) :
    (jsMergeSort le l).Perm l :=
  jsMergeSortFuel_perm le l.length l le_rfl

/-! ## Merge sort: pairwise invariants

`S` is the invariant relation, `G` a guard satisfied by every list member
(used only to provide transitivity of `S`). -/

theorem jsMerge_pairwise {α : Type _} {S : α → α → Prop} {G : α → Prop}
    (le : α → α → Bool)
    (h1 : ∀ a b, le a b = true → S a b)
    (h2 : ∀ a b, le a b = false → S b a)
    (htrans : ∀ a b c, G a → G b → G c → S a b → S b c → S a c) :
    ∀ xs ys : List α, (∀ a ∈ xs, G a) → (∀ a ∈ ys, G a) →
      xs.Pairwise S → ys.Pairwise S → (jsMerge le xs ys).Pairwise S := by
  intro xs
  induction xs with
  | nil =>
    intro ys _ _ _ hys
    simpa [jsMerge_nil_left] using hys
  | cons x xs ihx =>
    intro ys
    induction ys with
    | nil =>
      intro hGx _ hxs _
      simpa [jsMerge_nil_right] using hxs
    | cons y ys ihy =>
      intro hGx hGy hxs hys
      rw [jsMerge_cons_cons]
      rw [List.pairwise_cons] at hxs hys
      obtain ⟨hx, hxs'⟩ := hxs
      obtain ⟨hy, hys'⟩ := hys
      by_cases h : le x y = true
      · rw [if_pos h, List.pairwise_cons]
        constructor
        · intro z hz
          have hz' : z ∈ xs ∨ z ∈ y :: ys := by
            have := (jsMerge_perm le xs (y :: ys)).mem_iff.mp hz
            simpa [List.mem_append] using this
          rcases hz' with hz' | hz'
          · exact hx z hz'
          · rcases List.mem_cons.mp hz' with rfl | hz'
            · exact h1 x z h
            · exact htrans x y z (hGx x (by simp)) (hGy y (by simp))
                (hGy z (by simp [hz'])) (h1 x y h) (hy z hz')
        · exact ihx (y :: ys) (fun a ha => hGx a (by simp [ha])) hGy hxs'
            (List.pairwise_cons.mpr ⟨hy, hys'⟩)
      · have h' : le x y = false := by simpa using h
        rw [if_neg h, List.pairwise_cons]
        have hSyx : S y x := h2 x y h'
        constructor
        · intro z hz
          have hz' : z ∈ x :: xs ∨ z ∈ ys := by
            have := (jsMerge_perm le (x :: xs) ys).mem_iff.mp hz
            simpa [List.mem_append, or_assoc] using this
          rcases hz' with hz' | hz'
          · rcases List.mem_cons.mp hz' with rfl | hz'
            · exact hSyx
            · exact htrans y x z (hGy y (by simp)) (hGx x (by simp))
                (hGx z (by simp [hz'])) hSyx (hx z hz')
          · exact hy z hz'
        · exact ihy hGx (fun a ha => hGy a (by simp [ha]))
            (List.pairwise_cons.mpr ⟨hx, hxs'⟩) hys'

theorem jsMergeSortFuel_pairwise {α : Type _} {S : α → α → Prop} {G : α → Prop}
    (le : α → α → Bool)
    (h1 : ∀ a b, le a b = true → S a b)
    (h2 : ∀ a b, le a b = false → S b a)
    (htrans : ∀ a b c, G a → G b → G c → S a b → S b c → S a c) :
    ∀ (f : ℕ) (l : List α), l.length ≤ f → (∀ a ∈ l, G a) →
      (jsMergeSortFuel le f l).Pairwise S := by
  intro f
  induction f with
  | zero =>
    intro l hf _
    have hl : l = [] := by
      cases l with
      | nil => rfl
      | cons a t => simp [List.length_cons] at hf
    subst hl
    simp [jsMergeSortFuel]
  | succ f ihf =>
    intro l hf hG
    simp only [jsMergeSortFuel]
    by_cases h : l.length ≤ 1
    · rw [if_pos h]
      cases l with
      | nil => simp
      | cons a t =>
        cases t with
        | nil => simp
        | cons b u => simp [List.length_cons] at h
    · rw [if_neg h]
      have hft : (l.take (l.length / 2)).length ≤ f := by
        simp only [List.length_take]; omega
      have hfd : (l.drop (l.length / 2)).length ≤ f := by
        simp only [List.length_drop]; omega
      have hGt : ∀ a ∈ l.take (l.length / 2), G a := fun a ha =>
        hG a (List.take_subset _ _ ha)
      have hGd : ∀ a ∈ l.drop (l.length / 2), G a := fun a ha =>
        hG a (List.drop_subset _ _ ha)
      refine jsMerge_pairwise le h1 h2 htrans _ _ ?_ ?_ ?_ ?_
      · intro a ha
        exact hGt a ((jsMergeSortFuel_perm le f _ hft).mem_iff.mp ha)
      · intro a ha
        exact hGd a ((jsMergeSortFuel_perm le f _ hfd).mem_iff.mp ha)
      · exact ihf _ hft hGt
      · exact ihf _ hfd hGd

theorem jsMergeSort_pairwise {α : Type _} {S : α → α → Prop} {G : α → Prop}
    (le : α → α → Bool)
    (h1 : ∀ a b, le a b = true → S a b)
    (h2 : ∀ a b, le a b = false → S b a)
    (htrans : ∀ a b c, G a → G b → G c → S a b → S b c → S a c)
    (l : List α) (hG : ∀ a ∈ l, G a) : (jsMergeSort le l).Pairwise S :=
  jsMergeSortFuel_pairwise le h1 h2 htrans l.length l le_rfl hG

/-! ## Merge sort: stability on a tie class

`p` selects a class of mutually tied elements; the hypotheses say that the
class is coherent with the comparator (`hpp`), and that an element that
strictly precedes some class member can be invariant-below no class member
(`hkill`, `hkillx`). -/

theorem jsMerge_filter {α : Type _} {S : α → α → Prop} (le : α → α → Bool)
    (p : α → Bool)
    (hkill : ∀ x y z, le x y = false → p y = true → S x z → p z = false)
    (hkillx : ∀ x y, le x y = false → p y = true → p x = false) :
    ∀ xs ys : List α, xs.Pairwise S → ys.Pairwise S →
      (jsMerge le xs ys).filter p = xs.filter p ++ ys.filter p := by
  intro xs
  induction xs with
  | nil =>
    intro ys _ _
    simp [jsMerge_nil_left]
  | cons x xs ihx =>
    intro ys
    induction ys with
    | nil =>
      intro _ _
      simp [jsMerge_nil_right]
    | cons y ys ihy =>
      intro hxs hys
      rw [jsMerge_cons_cons]
      rw [List.pairwise_cons] at hxs hys
      obtain ⟨hx, hxs'⟩ := hxs
      obtain ⟨hy, hys'⟩ := hys
      by_cases h : le x y = true
      · rw [if_pos h, List.filter_cons, List.filter_cons]
        by_cases hpx : p x = true
        · rw [if_pos hpx, if_pos hpx, ihx (y :: ys) hxs'
            (List.pairwise_cons.mpr ⟨hy, hys'⟩)]
          rfl
        · rw [if_neg hpx, if_neg hpx, ihx (y :: ys) hxs'
            (List.pairwise_cons.mpr ⟨hy, hys'⟩)]
      · have h' : le x y = false := by simpa using h
        rw [if_neg h, List.filter_cons]
        by_cases hpy : p y = true
        · have hnone : (x :: xs).filter p = [] := by
            rw [List.filter_eq_nil_iff]
            intro z hz
            rcases List.mem_cons.mp hz with rfl | hz'
            · simp [hkillx z y h' hpy]
            · simp [hkill x y z h' hpy (hx z hz')]
          rw [if_pos hpy, ihy (List.pairwise_cons.mpr ⟨hx, hxs'⟩) hys']
          rw [hnone]
          simp [List.filter_cons, hpy]
        · rw [if_neg hpy, ihy (List.pairwise_cons.mpr ⟨hx, hxs'⟩) hys']
          simp [List.filter_cons, hpy]

theorem jsMergeSortFuel_filter {α : Type _} {S : α → α → Prop} {G : α → Prop}
    (le : α → α → Bool) (p : α → Bool)
    (h1 : ∀ a b, le a b = true → S a b)
    (h2 : ∀ a b, le a b = false → S b a)
    (htrans : ∀ a b c, G a → G b → G c → S a b → S b c → S a c)
    (hkill : ∀ x y z, le x y = false → p y = true → S x z → p z = false)
    (hkillx : ∀ x y, le x y = false → p y = true → p x = false) :
    ∀ (f : ℕ) (l : List α), l.length ≤ f → (∀ a ∈ l, G a) →
      (jsMergeSortFuel le f l).filter p = l.filter p := by
  intro f
  induction f with
  | zero =>
    intro l _ _
    simp [jsMergeSortFuel]
  | succ f ihf =>
    intro l hf hG
    simp only [jsMergeSortFuel]
    by_cases h : l.length ≤ 1
    · rw [if_pos h]
    · rw [if_neg h]
      have hft : (l.take (l.length / 2)).length ≤ f := by
        simp only [List.length_take]; omega
      have hfd : (l.drop (l.length / 2)).length ≤ f := by
        simp only [List.length_drop]; omega
      have hGt : ∀ a ∈ l.take (l.length / 2), G a := fun a ha =>
        hG a (List.take_subset _ _ ha)
      have hGd : ∀ a ∈ l.drop (l.length / 2), G a := fun a ha =>
        hG a (List.drop_subset _ _ ha)
      rw [jsMerge_filter le p hkill hkillx _ _
        (jsMergeSortFuel_pairwise le h1 h2 htrans f _ hft hGt)
        (jsMergeSortFuel_pairwise le h1 h2 htrans f _ hfd hGd)]
      rw [ihf _ hft hGt, ihf _ hfd hGd]
      rw [← List.filter_append, List.take_append_drop]

theorem jsMergeSort_filter {α : Type _} {S : α → α → Prop} {G : α → Prop}
    (le : α → α → Bool) (p : α → Bool)
    (h1 : ∀ a b, le a b = true → S a b)
    (h2 : ∀ a b, le a b = false → S b a)
    (htrans : ∀ a b c, G a → G b → G c → S a b → S b c → S a c)
    (hkill : ∀ x y z, le x y = false → p y = true → S x z → p z = false)
    (hkillx : ∀ x y, le x y = false → p y = true → p x = false)
    (l : List α) (hG : ∀ a ∈ l, G a) :
    (jsMergeSort le l).filter p = l.filter p :=
  jsMergeSortFuel_filter le p h1 h2 htrans hkill hkillx l.length l le_rfl hG

/-! ## Order facts for cells -/

theorem charsLt_irrefl : ∀ xs : List Char, charsLt xs xs = false := by
  intro xs
  induction xs with
  | nil => rfl
  | cons x xs ih =>
    simp [charsLt, Bool.or_eq_true, Bool.and_eq_true, decide_eq_true_eq, lt_irrefl, ih]

theorem charsLt_asymm : ∀ xs ys : List Char, charsLt xs ys = true → charsLt ys xs = false := by
  intro xs
  induction xs with
  | nil =>
    intro ys h
    cases ys with
    | nil => simp [charsLt] at h
    | cons y t => simp [charsLt]
  | cons x xs ih =>
    intro ys h
    cases ys with
    | nil => simp [charsLt] at h
    | cons y ys =>
      simp only [charsLt, Bool.or_eq_true, Bool.and_eq_true, decide_eq_true_eq] at h ⊢
      simp only [Bool.or_eq_false_iff, Bool.and_eq_false_iff, decide_eq_false_iff_not]
      rcases h with h | ⟨rfl, h⟩
      · exact ⟨lt_asymm h, Or.inl (fun he => absurd h (by rw [he]; exact lt_irrefl x))⟩
      · exact ⟨lt_irrefl x, Or.inr (ih ys h)⟩

theorem charsLt_trans :
    ∀ xs ys zs : List Char, charsLt xs ys = true → charsLt ys zs = true →
      charsLt xs zs = true := by
  intro xs
  induction xs with
  | nil =>
    intro ys zs h1 h2
    cases ys with
    | nil => simp [charsLt] at h1
    | cons y t =>
      cases zs with
      | nil => simp [charsLt] at h2
      | cons z u => simp [charsLt]
  | cons x xs ih =>
    intro ys zs h1 h2
    cases ys with
    | nil => simp [charsLt] at h1
    | cons y ys =>
      cases zs with
      | nil => simp [charsLt] at h2
      | cons z zs =>
        simp only [charsLt, Bool.or_eq_true, Bool.and_eq_true, decide_eq_true_eq] at h1 h2 ⊢
        rcases h1 with h1 | ⟨rfl, h1⟩
        · rcases h2 with h2 | ⟨rfl, h2⟩
          · exact Or.inl (lt_trans h1 h2)
          · exact Or.inl h1
        · rcases h2 with h2 | ⟨rfl, h2⟩
          · exact Or.inl h2
          · exact Or.inr ⟨rfl, ih ys zs h1 h2⟩

theorem charsLt_total_eq :
    ∀ xs ys : List Char, charsLt xs ys = false → charsLt ys xs = false → xs = ys := by
  intro xs
  induction xs with
  | nil =>
    intro ys h1 _
    cases ys with
    | nil => rfl
    | cons y t => simp [charsLt] at h1
  | cons x xs ih =>
    intro ys h1 h2
    cases ys with
    | nil => simp [charsLt] at h2
    | cons y ys =>
      simp only [charsLt, Bool.or_eq_false_iff, Bool.and_eq_false_iff,
        decide_eq_false_iff_not] at h1 h2
      obtain ⟨hxy, h1'⟩ := h1
      obtain ⟨hyx, h2'⟩ := h2
      have hxyeq : x = y := le_antisymm (le_of_not_lt hyx) (le_of_not_lt hxy)
      subst hxyeq
      rcases h1' with h1' | h1'
      · exact absurd rfl h1'
      · rcases h2' with h2' | h2'
        · exact absurd rfl h2'
        · rw [ih ys h1' h2']

theorem cellLt_irrefl (a : Cell) : cellLt a a = false := by
  cases a with
  | str s => simpa [cellLt] using charsLt_irrefl s.data
  | num q => simp [cellLt]

theorem cellLt_asymm : ∀ a b : Cell, cellLt a b = true → cellLt b a = false := by
  intro a b h
  cases a with
  | str s =>
    cases b with
    | str t => simpa [cellLt] using charsLt_asymm s.data t.data (by simpa [cellLt] using h)
    | num q => simp [cellLt] at h
  | num p =>
    cases b with
    | str t => simp [cellLt] at h
    | num q =>
      simp only [cellLt, decide_eq_true_eq] at h
      simp [cellLt, decide_eq_false_iff_not, not_lt, le_of_lt h]

theorem cellLt_trans : ∀ a b c : Cell, cellLt a b = true → cellLt b c = true →
    cellLt a c = true := by
  intro a b c h1 h2
  cases a with
  | str s =>
    cases b with
    | str t =>
      cases c with
      | str u =>
        simp only [cellLt] at h1 h2 ⊢
        exact charsLt_trans s.data t.data u.data h1 h2
      | num q => simp [cellLt] at h2
    | num q => simp [cellLt] at h1
  | num p =>
    cases b with
    | str t => simp [cellLt] at h1
    | num q =>
      cases c with
      | str u => simp [cellLt] at h2
      | num r =>
        simp only [cellLt, decide_eq_true_eq] at h1 h2 ⊢
        exact lt_trans h1 h2

theorem cellLt_eq_of_kind : ∀ a b : Cell, cellIsNum a = cellIsNum b →
    cellLt a b = false → cellLt b a = false → a = b := by
  intro a b hk h1 h2
  cases a with
  | str s =>
    cases b with
    | str t =>
      simp only [cellLt] at h1 h2
      cases s with
      | mk sd =>
        cases t with
        | mk td => rw [charsLt_total_eq sd td h1 h2]
    | num q => simp [cellIsNum] at hk
  | num p =>
    cases b with
    | str t => simp [cellIsNum] at hk
    | num q =>
      simp only [cellLt, decide_eq_false_iff_not, not_lt] at h1 h2
      rw [le_antisymm h2 h1]

/-! ## Comparator characterization -/

theorem rowLe_none_left (cfg : SortConfig) {a b : Item}
    (ha : getValue a cfg.key = none) : rowLe cfg a b = false := by
  simp [rowLe, rowCompare, ha]

theorem rowLe_some_none (cfg : SortConfig) {a b : Item} {va : Cell}
    (ha : getValue a cfg.key = some va) (hb : getValue b cfg.key = none) :
    rowLe cfg a b = true := by
  simp [rowLe, rowCompare, ha, hb]

theorem rowLe_asc {key : String} {a b : Item} {va vb : Cell}
    (ha : getValue a key = some va) (hb : getValue b key = some vb) :
    rowLe ⟨key, .asc⟩ a b = !cellLt vb va := by
  simp only [rowLe, rowCompare, ha, hb]
  by_cases h1 : cellLt va vb = true
  · rw [if_pos h1, cellLt_asymm va vb h1]
    simp
  · rw [if_neg h1]
    by_cases h2 : cellLt vb va = true
    · rw [if_pos h2, h2]
      simp
    · rw [if_neg h2, Bool.not_eq_true] at *
      rw [h2]
      simp

theorem rowLe_desc {key : String} {a b : Item} {va vb : Cell}
    (ha : getValue a key = some va) (hb : getValue b key = some vb) :
    rowLe ⟨key, .desc⟩ a b = !cellLt va vb := by
  simp only [rowLe, rowCompare, ha, hb]
  by_cases h1 : cellLt va vb = true
  · rw [if_pos h1, h1]
    simp
  · rw [if_neg h1]
    by_cases h2 : cellLt vb va = true
    · rw [if_pos h2]
      rw [Bool.not_eq_true] at h1
      rw [h1]
      simp
    · rw [if_neg h2]
      rw [Bool.not_eq_true] at h1
      rw [h1]
      simp

/-! ## Theorems: C3, C5, C6, C9 -/

/-- **C3.** Under any active sort spec, in both directions, a record with a
null/absent value on the sort column never precedes a record with a defined
value: whenever `a` comes before `b` in the sorted output and `a` lacks the
value, so does `b`. -/
theorem sortedData_nulls_last (l : List Item) (key : String) (dir : Direction) :
    (sortedData (some ⟨key, dir⟩) l).Pairwise
      (fun a b => getValue a key = none → getValue b key = none) := by
  simp only [sortedData]
  refine jsMergeSort_pairwise (G := fun _ => True) _ ?_ ?_ ?_ l (fun _ _ => trivial)
  · intro a b hle ha
    rw [rowLe_none_left ⟨key, dir⟩ ha] at hle
    cases hle
  · intro a b hle hb
    cases hget : getValue a key with
    | none => rfl
    | some va =>
      rw [rowLe_some_none ⟨key, dir⟩ hget hb] at hle
      cases hle
  · intro a b c _ _ _ hab hbc ha
    exact hbc (hab ha)

/-- **C5.** Clicking a sortable header cycles the sort state:
no sort on the column (nothing active, or another column active) → ascending;
ascending → descending; descending → unsorted.  Consequently three clicks on
one column starting unsorted return to unsorted. -/
theorem handleSort_spec :
    (∀ key, handleSort key none = some ⟨key, .asc⟩)
    ∧ (∀ key c, c.key ≠ key → handleSort key (some c) = some ⟨key, .asc⟩)
    ∧ (∀ key, handleSort key (some ⟨key, .asc⟩) = some ⟨key, .desc⟩)
    ∧ (∀ key, handleSort key (some ⟨key, .desc⟩) = none)
    ∧ (∀ key, handleSort key (handleSort key (handleSort key none)) = none) := by
  refine ⟨fun key => rfl, ?_, ?_, ?_, ?_⟩
  · intro key c hne
    simp [handleSort, hne]
  · intro key
    simp [handleSort]
  · intro key
    simp [handleSort]
  · intro key
    simp [handleSort]

/-- Witness for `handleSort_spec`: a click on column `"b"` while `"a"` is
active starts ascending on `"b"`; three clicks on `"a"` return to unsorted. -/
theorem handleSort_spec_witness :
    handleSort "b" (some ⟨"a", .asc⟩) = some ⟨"b", .asc⟩
    ∧ handleSort "a" (handleSort "a" (handleSort "a" none)) = none :=
  ⟨handleSort_spec.2.1 "b" ⟨"a", .asc⟩ (by decide), handleSort_spec.2.2.2.2 "a"⟩

/-- **C6.** Pagination slices the sorted/filtered sequence into consecutive
fixed-size pages: with page size 10 and 25 records there are 3 pages and
page 3 holds exactly the last 5 records; in general entry `i` of page `p`
is entry `(p-1)*pageSize + i` of the underlying sequence. -/
theorem paginatedData_spec :
    (∀ l : List Item, l.length = 25 →
      totalPages 10 l = 3 ∧ paginatedData 3 10 l = l.drop 20 ∧
        (paginatedData 3 10 l).length = 5)
    ∧ ∀ (l : List Item) (page pageSize i : ℕ),
        (paginatedData page pageSize l)[i]? =
          if i < pageSize then l[(page - 1) * pageSize + i]? else none := by
  constructor
  · intro l hl
    refine ⟨by simp [totalPages, hl], ?_, ?_⟩
    · have h5 : (l.drop 20).length = 5 := by simp [List.length_drop, hl]
      have : paginatedData 3 10 l = (l.drop 20).take 10 := rfl
      rw [this, List.take_of_length_le (by omega)]
    · simp [paginatedData, List.length_take, List.length_drop, hl]
  · intro l page pageSize i
    rw [paginatedData, List.getElem?_take]
    by_cases h : i < pageSize
    · rw [if_pos h, if_pos h, List.getElem?_drop]
    · rw [if_neg h, if_neg h]

/-- Witness for `paginatedData_spec` on a concrete 25-record list. -/
theorem paginatedData_spec_witness :
    totalPages 10 (List.replicate 25 ([] : Item)) = 3
    ∧ paginatedData 3 10 (List.replicate 25 ([] : Item)) =
        (List.replicate 25 ([] : Item)).drop 20
    ∧ (paginatedData 3 10 (List.replicate 25 ([] : Item))).length = 5 :=
  paginatedData_spec.1 (List.replicate 25 []) (by simp)

/-- **C9.** The render derivation never clamps or mutates the page index:
when `(currentPage - 1) * pageSize` is at least the sorted/filtered record
count, the page slice is empty, the empty-state placeholder is shown, and the
stored page index is unchanged. -/
theorem renderTable_no_clamp (pageSize : ℕ) (columns : List Column)
    (data : List Item) (s : TableState)
    (h : (sortedData s.sortConfig (filteredData s.searchQuery columns data)).length ≤
      (s.currentPage - 1) * pageSize) :
    (renderTable pageSize columns data s).rows = []
    ∧ (renderTable pageSize columns data s).showEmpty = true
    ∧ (renderTable pageSize columns data s).pageAfter = s.currentPage := by
  have hd : (sortedData s.sortConfig (filteredData s.searchQuery columns data)).drop
      ((s.currentPage - 1) * pageSize) = [] := List.drop_eq_nil_of_le h
  refine ⟨?_, ?_, rfl⟩
  · simp [renderTable, paginatedData, hd]
  · simp [renderTable, paginatedData, hd]

/-- Witness for `renderTable_no_clamp`: page 3 over a single-record list. -/
theorem renderTable_no_clamp_witness :
    (renderTable 10 [] [([] : Item)] ⟨"", none, 3⟩).rows = []
    ∧ (renderTable 10 [] [([] : Item)] ⟨"", none, 3⟩).showEmpty = true
    ∧ (renderTable 10 [] [([] : Item)] ⟨"", none, 3⟩).pageAfter = 3 :=
  renderTable_no_clamp 10 [] [([] : Item)] ⟨"", none, 3⟩ (by decide)

/-! ## Theorems: C4 -/

/-- **C4, counterexample.**  Two records that both lack the sort-column value
are a "tie" in the claim's sense, yet the sort *reverses* them: the
comparator returns `1` for every such pair (in both orders), so the merge
emits the right-hand record first.  Hence sorting is not stable on pairs of
records with null/absent sort keys. -/
theorem sortedData_both_null_reversed :
    sortedData (some ⟨"v", .asc⟩)
        [[("id", Cell.str "1")], [("id", Cell.str "2")]]
      = [[("id", Cell.str "2")], [("id", Cell.str "1")]]
    ∧ ([("id", Cell.str "1")] : Item) ≠ [("id", Cell.str "2")] := by
  constructor
  · decide
  · decide

/-- **C4 (amended).**  Stability holds on comparator ties between records
with *defined* sort-column values: provided all defined values on the sort
column are of one kind (all numbers or all strings, as in every sortable
column of the app), the records carrying any fixed value `v` appear in the
sorted output in exactly their original relative order.  (Both-null pairs
are excluded: the counterexample shows the sort reverses them.) -/
theorem sortedData_stable_on_ties (l : List Item) (key : String) (dir : Direction)
    (κ : Bool) (hκ : ∀ r ∈ l, KindHomog key κ r) (v : Cell) :
    (sortedData (some ⟨key, dir⟩) l).filter (fun r => getValue r key = some v)
      = l.filter (fun r => getValue r key = some v) := by
  simp only [sortedData]
  refine jsMergeSort_filter (S := fun a b => rowLe ⟨key, dir⟩ a b = true ∨
      (getValue a key = none ∧ getValue b key = none))
    (G := KindHomog key κ) _ _ ?_ ?_ ?_ ?_ ?_ l hκ
  · intro a b hle
    exact Or.inl hle
  · intro a b hle
    cases ha : getValue a key with
    | some va =>
      cases hb : getValue b key with
      | none =>
        rw [rowLe_some_none ⟨key, dir⟩ ha hb] at hle
        cases hle
      | some vb =>
        left
        cases dir with
        | asc =>
          rw [rowLe_asc ha hb, Bool.not_eq_false'] at hle
          rw [rowLe_asc hb ha, cellLt_asymm vb va hle]
          rfl
        | desc =>
          rw [rowLe_desc ha hb, Bool.not_eq_false'] at hle
          rw [rowLe_desc hb ha, cellLt_asymm va vb hle]
          rfl
    | none =>
      cases hb : getValue b key with
      | none => exact Or.inr ⟨rfl, rfl⟩
      | some vb => exact Or.inl (rowLe_some_none ⟨key, dir⟩ hb ha)
  · -- transitivity of the invariant on kind-homogeneous records
    intro a b c hGa hGb hGc hab hbc
    cases ha : getValue a key with
    | none =>
      rcases hab with hab | ⟨ha', hb'⟩
      · rw [rowLe_none_left ⟨key, dir⟩ ha] at hab
        cases hab
      · rcases hbc with hbc | ⟨hb'', hc'⟩
        · rw [rowLe_none_left ⟨key, dir⟩ hb'] at hbc
          cases hbc
        · exact Or.inr ⟨rfl, hc'⟩
    | some va =>
      cases hc : getValue c key with
      | none => exact Or.inl (rowLe_some_none ⟨key, dir⟩ ha hc)
      | some vc =>
        left
        cases hb : getValue b key with
        | none =>
          rcases hbc with hbc | ⟨hb', hc'⟩
          · rw [rowLe_none_left ⟨key, dir⟩ hb] at hbc
            cases hbc
          · rw [hc] at hc'
            cases hc'
        | some vb =>
          rcases hab with hab | ⟨ha', _⟩
          · rcases hbc with hbc | ⟨hb', _⟩
            · have hka : cellIsNum va = κ := hGa va ha
              have hkb : cellIsNum vb = κ := hGb vb hb
              have hkc : cellIsNum vc = κ := hGc vc hc
              cases dir with
              | asc =>
                rw [rowLe_asc ha hb, Bool.not_eq_true'] at hab
                rw [rowLe_asc hb hc, Bool.not_eq_true'] at hbc
                rw [rowLe_asc ha hc, Bool.not_eq_true']
                by_contra hcv
                rw [Bool.not_eq_false] at hcv
                cases hvab : cellLt va vb with
                | true => exact absurd (cellLt_trans vc va vb hcv hvab) (by rw [hbc]; simp)
                | false =>
                  have : va = vb := cellLt_eq_of_kind va vb (by rw [hka, hkb]) hvab hab
                  rw [this] at hcv
                  rw [hcv] at hbc
                  cases hbc
              | desc =>
                rw [rowLe_desc ha hb, Bool.not_eq_true'] at hab
                rw [rowLe_desc hb hc, Bool.not_eq_true'] at hbc
                rw [rowLe_desc ha hc, Bool.not_eq_true']
                by_contra hcv
                rw [Bool.not_eq_false] at hcv
                cases hvba : cellLt vb va with
                | true => exact absurd (cellLt_trans vb va vc hvba hcv) (by rw [hbc]; simp)
                | false =>
                  have : vb = va := cellLt_eq_of_kind vb va (by rw [hka, hkb]) hvba hab
                  rw [← this] at hcv
                  rw [hcv] at hbc
                  cases hbc
            · rw [hb] at hb'
              cases hb'
          · rw [ha] at ha'
            cases ha'
  · -- a record strictly before a class member bounds the whole left run away
    intro x y z hle hpy hS
    rw [decide_eq_true_eq] at hpy
    rw [decide_eq_false_iff_not]
    intro hpz
    rcases hS with hxz | ⟨_, hz'⟩
    · cases hx : getValue x key with
      | none =>
        rw [rowLe_none_left ⟨key, dir⟩ hx] at hxz
        cases hxz
      | some w =>
        cases dir with
        | asc =>
          rw [rowLe_asc hx hpy, Bool.not_eq_false'] at hle
          rw [rowLe_asc hx hpz, Bool.not_eq_true'] at hxz
          rw [hxz] at hle
          cases hle
        | desc =>
          rw [rowLe_desc hx hpy, Bool.not_eq_false'] at hle
          rw [rowLe_desc hx hpz, Bool.not_eq_true'] at hxz
          rw [hxz] at hle
          cases hle
    · rw [hpz] at hz'
      cases hz'
  · -- a tie-class member never strictly precedes another
    intro x y hle hpy
    rw [decide_eq_true_eq] at hpy
    rw [decide_eq_false_iff_not]
    intro hpx
    cases dir with
    | asc =>
      rw [rowLe_asc hpx hpy, cellLt_irrefl] at hle
      cases hle
    | desc =>
      rw [rowLe_desc hpx hpy, cellLt_irrefl] at hle
      cases hle

/-- Witness for `sortedData_stable_on_ties`: a numeric column with a tied
pair around a smaller value keeps the tied records in original order. -/
theorem sortedData_stable_on_ties_witness :
    (sortedData (some ⟨"a", .asc⟩)
        [[("a", Cell.num 5), ("id", Cell.num 1)], [("a", Cell.num 3)],
          [("a", Cell.num 5), ("id", Cell.num 2)]]).filter
        (fun r => getValue r "a" = some (Cell.num 5))
      = ([[("a", Cell.num 5), ("id", Cell.num 1)], [("a", Cell.num 3)],
          [("a", Cell.num 5), ("id", Cell.num 2)]] : List Item).filter
        (fun r => getValue r "a" = some (Cell.num 5)) :=
  sortedData_stable_on_ties _ "a" .asc true (by decide) (Cell.num 5)

/-! ## Theorems: C7 -/

/-- **C7.** For each entity-page mutation (create/update/delete on the loan,
property and customer pages): success closes the corresponding modal slot,
marks the cached list stale for refetch, and appends a success toast;
failure appends only a failure toast — the whole state is otherwise
unchanged, so the modal/dialog stays as it was and the displayed (cached)
list keeps the record.  In particular a failed delete leaves the delete
confirmation slot and the cached list untouched on every page. -/
theorem mutationSettle_spec (s : LoanPageState) (t : PropPageState)
    (u : CustPageState) :
    ((loanCreateSettle true s).isCreateOpen = false
      ∧ (loanCreateSettle true s).appsStale = true
      ∧ (loanCreateSettle true s).toasts = s.toasts ++ [.success "Application created"]
      ∧ (loanCreateSettle true s).cachedApps = s.cachedApps
      ∧ loanCreateSettle false s =
          { s with toasts := s.toasts ++ [.error "Failed to create application"] })
    ∧ ((loanUpdateSettle true s).editingApp = none
      ∧ (loanUpdateSettle true s).appsStale = true
      ∧ (loanUpdateSettle true s).toasts = s.toasts ++ [.success "Application updated"]
      ∧ (loanUpdateSettle true s).cachedApps = s.cachedApps
      ∧ loanUpdateSettle false s =
          { s with toasts := s.toasts ++ [.error "Failed to update application"] })
    ∧ ((loanDeleteSettle true s).deletingApp = none
      ∧ (loanDeleteSettle true s).appsStale = true
      ∧ (loanDeleteSettle true s).toasts = s.toasts ++ [.success "Application deleted"]
      ∧ (loanDeleteSettle true s).cachedApps = s.cachedApps
      ∧ loanDeleteSettle false s =
          { s with toasts := s.toasts ++ [.error "Failed to delete application"] }
      ∧ (loanDeleteSettle false s).deletingApp = s.deletingApp
      ∧ (loanDeleteSettle false s).cachedApps = s.cachedApps)
    ∧ ((propCreateSettle true t).isCreateOpen = false
      ∧ (propCreateSettle true t).propsStale = true
      ∧ (propCreateSettle true t).toasts = t.toasts ++ [.success "Property created"]
      ∧ (propCreateSettle true t).cachedProps = t.cachedProps
      ∧ propCreateSettle false t =
          { t with toasts := t.toasts ++ [.error "Failed to create property"] })
    ∧ ((propUpdateSettle true t).editingProperty = none
      ∧ (propUpdateSettle true t).propsStale = true
      ∧ (propUpdateSettle true t).toasts = t.toasts ++ [.success "Property updated"]
      ∧ (propUpdateSettle true t).cachedProps = t.cachedProps
      ∧ propUpdateSettle false t =
          { t with toasts := t.toasts ++ [.error "Failed to update property"] })
    ∧ ((propDeleteSettle true t).deletingProperty = none
      ∧ (propDeleteSettle true t).propsStale = true
      ∧ (propDeleteSettle true t).toasts = t.toasts ++ [.success "Property deleted"]
      ∧ (propDeleteSettle true t).cachedProps = t.cachedProps
      ∧ propDeleteSettle false t =
          { t with toasts := t.toasts ++ [.error "Failed to delete property"] }
      ∧ (propDeleteSettle false t).deletingProperty = t.deletingProperty
      ∧ (propDeleteSettle false t).cachedProps = t.cachedProps)
    ∧ ((custCreateSettle true u).isCreateOpen = false
      ∧ (custCreateSettle true u).customersStale = true
      ∧ (custCreateSettle true u).toasts = u.toasts ++ [.success "Customer created"]
      ∧ (custCreateSettle true u).cachedCustomers = u.cachedCustomers
      ∧ custCreateSettle false u =
          { u with toasts := u.toasts ++ [.error "Failed to create customer"] })
    ∧ ((custUpdateSettle true u).editingCustomer = none
      ∧ (custUpdateSettle true u).customersStale = true
      ∧ (custUpdateSettle true u).toasts = u.toasts ++ [.success "Customer updated"]
      ∧ (custUpdateSettle true u).cachedCustomers = u.cachedCustomers
      ∧ custUpdateSettle false u =
          { u with toasts := u.toasts ++ [.error "Failed to update customer"] })
    ∧ ((custDeleteSettle true u).deletingCustomer = none
      ∧ (custDeleteSettle true u).customersStale = true
      ∧ (custDeleteSettle true u).toasts = u.toasts ++ [.success "Customer deleted"]
      ∧ (custDeleteSettle true u).cachedCustomers = u.cachedCustomers
      ∧ custDeleteSettle false u =
          { u with toasts := u.toasts ++ [.error "Failed to delete customer"] }
      ∧ (custDeleteSettle false u).deletingCustomer = u.deletingCustomer
      ∧ (custDeleteSettle false u).cachedCustomers = u.cachedCustomers) :=
  ⟨⟨rfl, rfl, rfl, rfl, rfl⟩, ⟨rfl, rfl, rfl, rfl, rfl⟩,
    ⟨rfl, rfl, rfl, rfl, rfl, rfl, rfl⟩, ⟨rfl, rfl, rfl, rfl, rfl⟩,
    ⟨rfl, rfl, rfl, rfl, rfl⟩, ⟨rfl, rfl, rfl, rfl, rfl, rfl, rfl⟩,
    ⟨rfl, rfl, rfl, rfl, rfl⟩, ⟨rfl, rfl, rfl, rfl, rfl⟩,
    ⟨rfl, rfl, rfl, rfl, rfl, rfl, rfl⟩⟩

/-! ## Theorems: C8 -/

theorem foldl_add_loanAmount (l : List LoanApplication) :
    ∀ q : ℚ, l.foldl (fun sum a => sum + a.loanAmount) q
      = q + (l.map (fun a => a.loanAmount)).sum := by
  induction l with
  | nil => intro q; simp
  | cons a l ih =>
    intro q
    simp only [List.foldl_cons, List.map_cons, List.sum_cons, ih]
    ring

/-- **C8.** The dashboard aggregates: the total loan value is the sum of all
applications' `loanAmount`; the pending count is the number of applications
in `Submitted` or `UnderReview` status; and the recent list consists of
`min 5 n` applications, ordered by descending creation timestamp, whose
timestamps dominate those of all remaining applications (the remaining
applications `rest` complete them to a permutation of the input). -/
theorem dashboard_aggregates (applications : List LoanApplication) :
    totalLoanValue applications = (applications.map (fun a => a.loanAmount)).sum
    ∧ pendingReview applications =
        applications.countP (fun a => decide (a.status = .Submitted ∨ a.status = .UnderReview))
    ∧ (recentApps applications).length = min 5 applications.length
    ∧ (recentApps applications).Pairwise (fun a b => b.createdAt ≤ a.createdAt)
    ∧ ∃ rest : List LoanApplication,
        (recentApps applications ++ rest).Perm applications
        ∧ ∀ a ∈ recentApps applications, ∀ b ∈ rest, b.createdAt ≤ a.createdAt := by
  have hsorted : (jsMergeSort (fun a b => b.createdAt - a.createdAt ≤ 0)
      applications).Pairwise (fun a b : LoanApplication => b.createdAt ≤ a.createdAt) := by
    refine jsMergeSort_pairwise (G := fun _ => True) _ ?_ ?_ ?_ applications
      (fun _ _ => trivial)
    · intro a b h
      rw [decide_eq_true_eq] at h
      omega
    · intro a b h
      rw [decide_eq_false_iff_not] at h
      omega
    · intro a b c _ _ _ hab hbc
      omega
  have hperm := jsMergeSort_perm (fun a b : LoanApplication =>
    b.createdAt - a.createdAt ≤ 0) applications
  refine ⟨?_, ?_, ?_, ?_, ?_⟩
  · rw [totalLoanValue, foldl_add_loanAmount, zero_add]
  · rw [pendingReview, ← List.countP_eq_length_filter]
    congr 1
    funext a
    cases ha : a.status <;> simp [ha]
  · rw [recentApps, List.length_take, hperm.length_eq]
  · exact hsorted.sublist (List.take_sublist 5 _)
  · refine ⟨(jsMergeSort (fun a b => b.createdAt - a.createdAt ≤ 0)
      applications).drop 5, ?_, ?_⟩
    · rw [recentApps, List.take_append_drop]
      exact hperm
    · intro a ha b hb
      rw [recentApps] at ha
      have := List.pairwise_append.mp (by
        rw [List.take_append_drop 5 (jsMergeSort (fun a b =>
          b.createdAt - a.createdAt ≤ 0) applications)]
        exact hsorted)
      exact this.2.2 a ha b hb

/-! ## JSVal computation lemmas -/

theorem JSVal.sub_num (a b : ℚ) : (JSVal.num a).sub (JSVal.num b) = JSVal.num (a - b) := rfl

theorem JSVal.add_num (a b : ℚ) : (JSVal.num a).add (JSVal.num b) = JSVal.num (a + b) := rfl

theorem JSVal.mul_num (a b : ℚ) : (JSVal.num a).mul (JSVal.num b) = JSVal.num (a * b) := rfl

theorem JSVal.div_num {b : ℚ} (a : ℚ) (hb : b ≠ 0) :
    (JSVal.num a).div (JSVal.num b) = JSVal.num (a / b) := by
  simp [JSVal.div, hb]

theorem JSVal.div_num_zero_neg {a : ℚ} (ha : a < 0) :
    (JSVal.num a).div (JSVal.num 0) = JSVal.ninf := by
  simp [JSVal.div, ne_of_lt ha, not_lt_of_lt ha]

theorem JSVal.powNat_num (q : ℚ) : ∀ n : ℕ, (JSVal.num q).powNat n = JSVal.num (q ^ n) := by
  intro n
  induction n with
  | zero => simp [JSVal.powNat]
  | succ n ih => rw [JSVal.powNat, ih, JSVal.mul_num, pow_succ, mul_comm]

theorem JSVal.isZero_num (q : ℚ) : (JSVal.num q).isZero = decide (q = 0) := rfl

theorem JSVal.isNaN_guard (p : JSVal) :
    (if p.isNaN then JSVal.num 0 else p).isNaN = false := by
  cases p <;> simp [JSVal.isNaN]

/-- The monthly rate computed by `calculatePayment` on finite inputs. -/
theorem calculatePayment_rate (ir : ℚ) :
    ((JSVal.num ir).div (JSVal.num 100)).div (JSVal.num 12) = JSVal.num (ir / 100 / 12) := by
  rw [JSVal.div_num ir (by norm_num), JSVal.div_num (ir / 100) (by norm_num)]

/-- The general closed form of `calculatePayment` on finite inputs whose
formula denominator does not vanish. -/
theorem calculatePayment_formula (la dp ir : ℚ) (n : ℕ)
    (h : (1 + ir / 100 / 12) ^ n - 1 ≠ 0) :
    calculatePayment (.num la) (.num dp) (.num ir) n =
      .num ((la - dp) * (ir / 100 / 12) * (1 + ir / 100 / 12) ^ n /
        ((1 + ir / 100 / 12) ^ n - 1)) := by
  have hr : ir / 100 / 12 ≠ 0 := by
    intro h0
    rw [h0] at h
    simp at h
  rw [calculatePayment, calculatePayment_rate]
  rw [JSVal.isZero_num, if_neg (by simpa using hr)]
  rw [JSVal.sub_num, JSVal.add_num, JSVal.powNat_num, JSVal.mul_num, JSVal.mul_num,
    JSVal.sub_num, JSVal.div_num _ h]
  simp [JSVal.isNaN]

/-! ## Theorems: C1 -/

/-- **C1, counterexample.**  Not every non-finite result is displayed as
zero: the code only guards against `NaN`.  With loan amount 300000, down
payment 0, an (invalid but typeable) interest rate of −2400 and term 360,
the monthly rate is −2, `(1 + r)^360 = 1`, and the formula divides the
negative numerator by zero, producing `-Infinity`, which passes the `isNaN`
check and is displayed as-is, not as zero. -/
theorem calculatePayment_ninf_not_zero :
    calculatePayment (.num 300000) (.num 0) (.num (-2400)) 360 = JSVal.ninf
    ∧ JSVal.ninf ≠ JSVal.num 0 := by
  constructor
  · have hmr : ((-2400 : ℚ)) / 100 / 12 = -2 := by norm_num
    rw [calculatePayment, calculatePayment_rate, hmr]
    rw [JSVal.isZero_num, if_neg (by norm_num)]
    rw [JSVal.sub_num, JSVal.add_num, JSVal.powNat_num, JSVal.mul_num, JSVal.mul_num,
      JSVal.sub_num]
    norm_num
    rw [JSVal.div_num_zero_neg (by norm_num)]
    simp [JSVal.isNaN]
  · simp

/-- **C1 (amended).**  The loan form's estimate follows the standard
amortization formula on finite inputs: with `P = loanAmount - downPayment`,
`r = rate/100/12` and term `n`, the result is
`P·r·(1+r)^n / ((1+r)^n − 1)` whenever that denominator is nonzero; when
`r = 0` it is exactly `P/n`; a `NaN` result is displayed as zero (the code
checks only `isNaN`, so an infinite result is *not* zeroed — see the
counterexample); and at principal 300000, annual rate 6, term 360 the result
is within 0.01 of 1798.65. -/
theorem calculatePayment_spec :
    (∀ (la dp ir : ℚ) (n : ℕ),
      ((1 + ir / 100 / 12) ^ n - 1 ≠ 0 →
        calculatePayment (.num la) (.num dp) (.num ir) n =
          .num ((la - dp) * (ir / 100 / 12) * (1 + ir / 100 / 12) ^ n /
            ((1 + ir / 100 / 12) ^ n - 1)))
      ∧ (ir / 100 / 12 = 0 → 0 < n →
        calculatePayment (.num la) (.num dp) (.num ir) n = .num ((la - dp) / (n : ℚ)))
      ∧ (ir / 100 / 12 ≠ 0 →
        (calculatePayment (.num la) (.num dp) (.num ir) n).isNaN = false))
    ∧ (∃ q : ℚ, calculatePayment (.num 300000) (.num 0) (.num 6) 360 = .num q
        ∧ |q - 179865 / 100| < 1 / 100) := by
  constructor
  · intro la dp ir n
    refine ⟨calculatePayment_formula la dp ir n, ?_, ?_⟩
    · intro hr hn
      rw [calculatePayment, calculatePayment_rate, JSVal.isZero_num, if_pos (by simpa using hr)]
      rw [JSVal.sub_num, JSVal.div_num _ (by positivity)]
    · intro hr
      rw [calculatePayment, calculatePayment_rate, JSVal.isZero_num,
        if_neg (by simpa using hr)]
      exact JSVal.isNaN_guard _
  · have hden : (1 + (6 : ℚ) / 100 / 12) ^ 360 - 1 ≠ 0 := by
      have h1 : (1 : ℚ) < 1 + 6 / 100 / 12 := by norm_num
      have h2 : (1 : ℚ) < (1 + 6 / 100 / 12) ^ 360 := one_lt_pow₀ h1 (by norm_num)
      intro h0
      rw [sub_eq_zero] at h0
      rw [h0] at h2
      exact lt_irrefl 1 h2
    refine ⟨_, calculatePayment_formula 300000 0 6 360 hden, ?_⟩
    rw [abs_sub_lt_iff]
    constructor <;> norm_num

/-- Hypothesis dischargers for the `calculatePayment_spec` witness. -/
theorem witness_den_ne : (1 + (1200 : ℚ) / 100 / 12) ^ 1 - 1 ≠ 0 := by norm_num

theorem witness_rate_ne : (1200 : ℚ) / 100 / 12 ≠ 0 := by norm_num

theorem witness_rate_zero : (0 : ℚ) / 100 / 12 = 0 := by norm_num

/-- Witness for `calculatePayment_spec`, discharging each hypothesis at
concrete inputs: annual rate 1200 (monthly rate 1) for the formula and the
`isNaN` clause, annual rate 0 for the degenerate branch. -/
theorem calculatePayment_spec_witness :
    calculatePayment (.num 1200) (.num 0) (.num 1200) 1 =
      .num ((1200 - 0) * (1200 / 100 / 12) * (1 + 1200 / 100 / 12) ^ 1 /
        ((1 + 1200 / 100 / 12) ^ 1 - 1))
    ∧ calculatePayment (.num 1200) (.num 0) (.num 0) 12 = .num ((1200 - 0) / (12 : ℚ))
    ∧ (calculatePayment (.num 1200) (.num 0) (.num 1200) 1).isNaN = false :=
  ⟨(calculatePayment_spec.1 1200 0 1200 1).1 witness_den_ne,
    (calculatePayment_spec.1 1200 0 0 12).2.1 witness_rate_zero (by decide),
    (calculatePayment_spec.1 1200 0 1200 1).2.2 witness_rate_ne⟩

/-! ## Theorems: C10 -/

/-- **C10, counterexample.**  An entered interest rate of exactly 0 is *not*
replaced by the 6.5 default, and the `r = 0` branch *is* reachable from form
input: react-hook-form's watched state holds the typed string `"0"`, which
is truthy, so `watch('interestRate') || 6.5` keeps it; the arithmetic then
coerces it to the number 0 and `calculatePayment` takes its `r = 0` branch,
displaying `principal / termMonths` — here 300000/360 — which differs from
the payment computed with annual rate 6.5 at the same inputs. -/
theorem estimatedPayment_entered_zero :
    estimatedPayment (.num 300000) (.num 0) (.str "0") (.num 360)
      = .num (300000 / 360)
    ∧ calculatePayment (.num 300000) (.num 0) (.num (13 / 2)) 360
      ≠ .num (300000 / 360) := by
  constructor
  · have hla : jsOrF (.num 300000) 0 = .num 300000 := by
      rw [jsOrF, if_pos (by norm_num [FormVal.truthy])]
    have hdp : jsOrF (.num 0) 0 = .num 0 := by
      rw [jsOrF, if_neg (by norm_num [FormVal.truthy])]
    have hir : jsOrF (.str "0") 6.5 = .str "0" := by
      rw [jsOrF, if_pos (by decide)]
    have hir0 : jsToNumber (.str "0") = .num 0 := by
      simp [jsToNumber, parseDecimal, parseDigits, List.takeWhile, List.dropWhile]
    have htm : termCount (jsOrF (.num 360) 360) = 360 := by
      rw [jsOrF, if_pos (by norm_num [FormVal.truthy])]
      simp [termCount, jsToNumber]
    rw [estimatedPayment, hla, hdp, hir, hir0, htm]
    rw [calculatePayment, calculatePayment_rate]
    rw [show (0 : ℚ) / 100 / 12 = 0 from by norm_num]
    rw [JSVal.isZero_num, if_pos (by norm_num), jsToNumber, jsToNumber, JSVal.sub_num,
      JSVal.div_num _ (by norm_num : ((360 : ℕ) : ℚ) ≠ 0)]
    simp only [JSVal.num.injEq]
    norm_num
  · have hden : (1 + (13 : ℚ) / 2 / 100 / 12) ^ 360 - 1 ≠ 0 := by
      have h1 : (1 : ℚ) < 1 + 13 / 2 / 100 / 12 := by norm_num
      have h2 : (1 : ℚ) < (1 + 13 / 2 / 100 / 12) ^ 360 := one_lt_pow₀ h1 (by norm_num)
      intro h0
      rw [sub_eq_zero] at h0
      rw [h0] at h2
      exact lt_irrefl 1 h2
    rw [calculatePayment_formula 300000 0 (13 / 2) 360 hden]
    simp only [ne_eq, JSVal.num.injEq]
    norm_num

/-- **C10 (amended).**  Every watched loan-form input that is *falsy* is
replaced by its fixed default before the payment computation
(`loanAmount`/`downPayment` by 0, `termMonths` by 360, `interestRate` by
6.5) — but the watched values are the form's raw strings, so for the
interest rate only an emptied field (or a numeric 0 from programmatic
default values) is falsy.  An *entered* rate of exactly 0 is the truthy
string `"0"`: it is kept, coerces to the number 0, and drives the `r = 0`
branch of `calculatePayment`, so the displayed payment is
`principal / termMonths` and the `r = 0` branch is reachable from form
input.  An emptied rate field falls back to 6.5 = 13/2. -/
theorem estimatedPayment_defaults :
    (∀ (v : FormVal) (d : ℚ), v.truthy = false → jsOrF v d = .num d)
    ∧ (FormVal.undef.truthy = false ∧ (FormVal.num 0).truthy = false
        ∧ (FormVal.str "").truthy = false ∧ (FormVal.str "0").truthy = true)
    ∧ (∀ la dp tm : FormVal,
        estimatedPayment la dp (.str "") tm
          = calculatePayment (jsToNumber (jsOrF la 0)) (jsToNumber (jsOrF dp 0))
              (.num (13 / 2)) (termCount (jsOrF tm 360)))
    ∧ (∀ la dp tm : FormVal,
        estimatedPayment la dp (.str "0") tm
          = ((jsToNumber (jsOrF la 0)).sub (jsToNumber (jsOrF dp 0))).div
              (.num (termCount (jsOrF tm 360)))) := by
  refine ⟨?_, ⟨rfl, by norm_num [FormVal.truthy], by decide, by decide⟩, ?_, ?_⟩
  · intro v d h
    rw [jsOrF, if_neg (by rw [h]; exact Bool.false_ne_true)]
  · intro la dp tm
    have h65 : jsToNumber (jsOrF (.str "") 6.5) = .num (13 / 2) := by
      rw [jsOrF, if_neg (by decide), jsToNumber]
      norm_num
    rw [estimatedPayment, h65]
  · intro la dp tm
    have hir : jsToNumber (jsOrF (.str "0") 6.5) = .num 0 := by
      rw [jsOrF, if_pos (by decide)]
      simp [jsToNumber, parseDecimal, parseDigits, List.takeWhile, List.dropWhile]
    rw [estimatedPayment, hir]
    rw [calculatePayment, calculatePayment_rate]
    rw [show (0 : ℚ) / 100 / 12 = 0 from by norm_num]
    rw [JSVal.isZero_num, if_pos (by norm_num)]

/-- Witness for `estimatedPayment_defaults`: an undefined watch result takes
the 6.5 default; the entered-`"0"` clause exercised at concrete inputs. -/
theorem estimatedPayment_defaults_witness :
    jsOrF FormVal.undef 6.5 = FormVal.num 6.5
    ∧ estimatedPayment (.num 300000) (.num 0) (.str "0") (.num 360)
        = ((jsToNumber (jsOrF (.num 300000) 0)).sub (jsToNumber (jsOrF (.num 0) 0))).div
            (.num (termCount (jsOrF (.num 360) 360))) :=
  ⟨estimatedPayment_defaults.1 FormVal.undef 6.5 rfl,
    estimatedPayment_defaults.2.2.2 (.num 300000) (.num 0) (.num 360)⟩
